import Mathlib

/-!
# Verification of the env-validator core

Shallow embedding of the `env-validator` TypeScript package:
the schema model (`src/types.ts`), the validation engine
(`src/validator.ts`, `EnvValidator.parseValue` / `EnvValidator.validate`)
and the `.env` file collaborator (`EnvFileHandler.parse` /
`generateExample` / `validate`).

JavaScript platform builtins that the code calls (`new URL`, `JSON.parse`,
`Number::toString` on the idealized exact rationals) are abstracted into a
`JsRuntime` record of function parameters, so every theorem holds for any
behaviour of those builtins.  JavaScript numbers are modelled as exact
rationals plus the two infinities (NaN is `Option.none`); no claim below
depends on double rounding.
-/

set_option autoImplicit false

namespace EnvSpec

/-- A JavaScript number that is not NaN: an exact rational (idealizing the
IEEE double; no claim depends on rounding) or one of the two infinities. -/
inductive JsNum where
  | finite (q : ℚ)
  | posInf
  | negInf
deriving DecidableEq

/-- A parsed JSON structure, as produced by `JSON.parse`. -/
inductive JsonVal where
  | null
  | jbool (b : Bool)
  | jnum (n : JsNum)
  | jstr (s : String)
  | jarr (elems : List JsonVal)
  | jobj (fields : List (String × JsonVal))

/-- The runtime value a field resolves to, mirroring the `any` returned by
`EnvValidator.parseValue`: `undefined`, a string, a number, a boolean, or a
parsed JSON structure. -/
inductive Value where
  | undef
  | vstr (s : String)
  | vnum (n : JsNum)
  | vbool (b : Bool)
  | vjson (j : JsonVal)

/-- The six type tags of `EnvVarType` in `src/types.ts`. -/
inductive EnvVarType where
  | tstring
  | tnumber
  | tboolean
  | turl
  | temail
  | tjson
deriving DecidableEq

/-- JavaScript platform builtins used by the code, left abstract: whether
`new URL(s)` succeeds, what `JSON.parse` returns (`none` models a throw),
and the `String()` conversion of numbers and JSON structures (abstract
because the number model is an exact rational). -/
structure JsRuntime where
  urlOk : String → Bool
  jsonParse : String → Option JsonVal
  numToString : JsNum → String
  jsonToString : JsonVal → String

/-- One schema entry (`EnvVarConfig` in `src/types.ts`).  The validator is a
JavaScript function that may also throw: `Except.error m` models a throw
whose error carries message `m`.  `default := none` models
`default === undefined`. -/
structure EnvVarConfig where
  type : EnvVarType
  required : Bool := false
  default : Option Value := none
  validator : Option (Value → Except String Bool) := none
  description : Option String := none

/-! ## JavaScript string primitives

The JavaScript string operations are modelled on the character list of the
string, so that every definition evaluates by kernel reduction. -/

/-- JavaScript `s.startsWith(p)`. -/
def strStartsWith (s p : String) : Bool :=
  p.toList.isPrefixOf s.toList

/-- JavaScript `s.endsWith(p)`. -/
def strEndsWith (s p : String) : Bool :=
  p.toList.reverse.isPrefixOf s.toList.reverse

/-- Whether a string is empty. -/
def strIsEmpty (s : String) : Bool :=
  s.toList.isEmpty

/-- JavaScript `array.includes(s)` on an array of strings (the
`SameValueZero` comparison is symmetric). -/
def jsIncludes (l : List String) (s : String) : Bool :=
  l.any (fun t => decide (s = t))

/-- The ECMAScript `StrWhiteSpaceChar` set (WhiteSpace plus LineTerminator),
used by both `String.prototype.trim` and `Number()` on strings. -/
def isJsWs (c : Char) : Bool :=
  let n := c.toNat
  n == 9 || n == 10 || n == 11 || n == 12 || n == 13 || n == 32 ||
  n == 160 || n == 0x1680 || (Nat.ble 0x2000 n && Nat.ble n 0x200A) ||
  n == 0x2028 || n == 0x2029 || n == 0x202F || n == 0x205F ||
  n == 0x3000 || n == 0xFEFF

/-- Drop leading and trailing JavaScript whitespace from a character list. -/
def jsTrimList (cs : List Char) : List Char :=
  ((cs.dropWhile isJsWs).reverse.dropWhile isJsWs).reverse

/-- `String.prototype.trim`. -/
def jsTrim (s : String) : String :=
  (jsTrimList s.toList).asString

/-- ASCII lowering of one character.  Models `String.prototype.toLowerCase`
restricted to ASCII; the boolean-coercion literals involved in the claims
are all ASCII. -/
def asciiLowerChar (c : Char) : Char :=
  if 65 ≤ c.toNat ∧ c.toNat ≤ 90 then Char.ofNat (c.toNat + 32) else c

/-- `String.prototype.toLowerCase` (ASCII fragment). -/
def asciiLower (s : String) : String :=
  (s.toList.map asciiLowerChar).asString

/-! ## `Number()` on strings

Models ECMAScript `StringToNumber`: trim, empty means `0`, otherwise a
`StrNumericLiteral` (signed decimal with optional fraction and exponent,
`Infinity`, or an unsigned binary/octal/hex literal).  Values are exact
rationals. -/

def isDecDigit (c : Char) : Bool :=
  Nat.ble 48 c.toNat && Nat.ble c.toNat 57

def decDigitVal (c : Char) : Nat := c.toNat - 48

def isHexDigit (c : Char) : Bool :=
  isDecDigit c || (Nat.ble 97 c.toNat && Nat.ble c.toNat 102) ||
  (Nat.ble 65 c.toNat && Nat.ble c.toNat 70)

def hexDigitVal (c : Char) : Nat :=
  if Nat.ble 97 c.toNat then c.toNat - 87
  else if Nat.ble 65 c.toNat then c.toNat - 55
  else c.toNat - 48

def isOctDigit (c : Char) : Bool :=
  Nat.ble 48 c.toNat && Nat.ble c.toNat 55

def isBinDigit (c : Char) : Bool :=
  c.toNat == 48 || c.toNat == 49

/-- Value of a digit string in the given base. -/
def digitsVal (base : Nat) (dval : Char → Nat) (ds : List Char) : Nat :=
  ds.foldl (fun acc c => acc * base + dval c) 0

/-- Ten to an integer power, as an exact rational. -/
def pow10 (e : Int) : ℚ :=
  if 0 ≤ e then ((10 : ℚ) ^ e.toNat) else 1 / (10 : ℚ) ^ (-e).toNat

/-- The optional exponent part of a decimal literal: empty means exponent
`0`; otherwise `e`/`E`, an optional sign, and at least one digit. -/
def parseExponentPart : List Char → Option Int
  | [] => some 0
  | c :: rest =>
    if c == 'e' || c == 'E' then
      let signed : Int × List Char :=
        match rest with
        | '+' :: r => (1, r)
        | '-' :: r => (-1, r)
        | r => (1, r)
      if signed.2 ≠ [] ∧ signed.2.all isDecDigit then
        some (signed.1 * (digitsVal 10 decDigitVal signed.2 : Nat))
      else none
    else none

/-- An unsigned decimal literal: `D+`, `D+ . D*`, or `. D+`, each followed by
an optional exponent. -/
def parseUnsignedDec (cs : List Char) : Option ℚ :=
  let intPart := cs.takeWhile isDecDigit
  let r1 := cs.dropWhile isDecDigit
  match r1 with
  | '.' :: r2 =>
    let fracPart := r2.takeWhile isDecDigit
    let r3 := r2.dropWhile isDecDigit
    if intPart.isEmpty && fracPart.isEmpty then none
    else
      match parseExponentPart r3 with
      | none => none
      | some e =>
        some (((digitsVal 10 decDigitVal intPart : ℚ) +
          (digitsVal 10 decDigitVal fracPart : ℚ) / (10 : ℚ) ^ fracPart.length) *
          pow10 e)
  | _ =>
    if intPart.isEmpty then none
    else
      match parseExponentPart r1 with
      | none => none
      | some e => some ((digitsVal 10 decDigitVal intPart : ℚ) * pow10 e)

/-- A signed decimal literal or `Infinity` (signs apply only to these, not to
the non-decimal radix literals). -/
def parseSignedDec (cs : List Char) : Option JsNum :=
  let signed : Bool × List Char :=
    match cs with
    | '+' :: r => (false, r)
    | '-' :: r => (true, r)
    | r => (false, r)
  if signed.2 = "Infinity".toList then
    some (if signed.1 then JsNum.negInf else JsNum.posInf)
  else
    (parseUnsignedDec signed.2).map
      (fun q => JsNum.finite (if signed.1 then -q else q))

/-- ECMAScript `Number()` applied to a string; `none` is NaN. -/
def jsStringToNumber (s : String) : Option JsNum :=
  match jsTrimList s.toList with
  | [] => some (JsNum.finite 0)
  | '0' :: c :: rest =>
    if c == 'x' || c == 'X' then
      if rest ≠ [] ∧ rest.all isHexDigit then
        some (JsNum.finite (digitsVal 16 hexDigitVal rest : Nat))
      else none
    else if c == 'o' || c == 'O' then
      if rest ≠ [] ∧ rest.all isOctDigit then
        some (JsNum.finite (digitsVal 8 decDigitVal rest : Nat))
      else none
    else if c == 'b' || c == 'B' then
      if rest ≠ [] ∧ rest.all isBinDigit then
        some (JsNum.finite (digitsVal 2 decDigitVal rest : Nat))
      else none
    else parseSignedDec ('0' :: c :: rest)
  | cs => parseSignedDec cs

/-! ## The email regular expression

`/^[^\s@]+@[^\s@]+\.[^\s@]+$/` from `EnvValidator.parseValue`. -/

/-- Membership in the character class `[^\s@]`. -/
def emailChar (c : Char) : Bool := !isJsWs c && c != '@'

/-- Whether the email regex matches the whole string: one `@`, a nonempty
local part, and a domain containing an interior dot, with no whitespace or
further `@` anywhere. -/
def jsEmailMatch (s : String) : Bool :=
  let cs := s.toList
  let localPart := cs.takeWhile (· != '@')
  let rest := cs.dropWhile (· != '@')
  match rest with
  | '@' :: domain =>
    !localPart.isEmpty && localPart.all emailChar &&
    domain.all emailChar && ((domain.drop 1).dropLast.contains '.')
  | _ => false

/-! ## The validation engine (`src/validator.ts`) -/

/-- `EnvValidator.parseValue`: parse and validate a single raw value against
a config.  `Except.error m` models `throw new Error(m)`. -/
def parseValue (rt : JsRuntime) (value : Option String) (config : EnvVarConfig) :
    Except String Value :=
  match value with
  | none =>
    if config.required && config.default.isNone then
      .error "Required value is missing"
    else .ok (config.default.getD Value.undef)
  | some v =>
    match config.type with
    | .tnumber =>
      match jsStringToNumber v with
      | none => .error "Invalid number"
      | some n => .ok (.vnum n)
    | .tboolean =>
      if !(jsIncludes ["true", "false", "1", "0"] (asciiLower v)) then
        .error "Invalid boolean"
      else .ok (.vbool (jsIncludes ["true", "1"] (asciiLower v)))
    | .turl => if rt.urlOk v then .ok (.vstr v) else .error "Invalid URL"
    | .temail =>
      if !jsEmailMatch v then .error "Invalid email" else .ok (.vstr v)
    | .tjson =>
      match rt.jsonParse v with
      | none => .error "Invalid JSON"
      | some j => .ok (.vjson j)
    | .tstring => .ok (.vstr v)

/-- The guard `if (config.validator && !config.validator(value)) throw new
Error("Custom validation failed")` from `EnvValidator.validate`: a missing
validator accepts, a throwing validator propagates its own error, a falsy
result becomes the fixed message. -/
def applyValidator (validator : Option (Value → Except String Bool))
    (v : Value) : Except String Value :=
  match validator with
  | none => .ok v
  | some f =>
    match f v with
    | .error e => .error e
    | .ok b => if b then .ok v else .error "Custom validation failed"

/-- The body of the `try` block in `EnvValidator.validate` for one field:
parse the raw value, then run the custom validator. -/
def resolveField (rt : JsRuntime) (config : EnvVarConfig)
    (value : Option String) : Except String Value :=
  match parseValue rt value config with
  | .error e => .error e
  | .ok v => applyValidator config.validator v

/-- JavaScript object assignment `obj[k] = v`: replace in place if the key
exists, else append (JS objects keep the original insertion position of an
overwritten key). -/
def jsObjSet {α : Type} (obj : List (String × α)) (k : String) (v : α) :
    List (String × α) :=
  match obj with
  | [] => [(k, v)]
  | (k2, v2) :: rest =>
    if k2 = k then (k, v) :: rest else (k2, v2) :: jsObjSet rest k v

/-- JavaScript object lookup `obj[k]`: `none` models `undefined`. -/
def jsObjGet {α : Type} (obj : List (String × α)) (k : String) : Option α :=
  match obj with
  | [] => none
  | (k2, v) :: rest => if k2 = k then some v else jsObjGet rest k

/-- One iteration of the `for` loop of `EnvValidator.validate`: on success
record the value into the result object, on failure push
`key + ": " + message` onto the error list. -/
def validateStep (rt : JsRuntime) (env : String → Option String)
    (acc : List String × List (String × Value)) (kv : String × EnvVarConfig) :
    List String × List (String × Value) :=
  match resolveField rt kv.2 (env kv.1) with
  | .ok v => (acc.1, jsObjSet acc.2 kv.1 v)
  | .error e => (acc.1 ++ [kv.1 ++ ": " ++ e], acc.2)

/-- `EnvValidator.validate`: iterate the schema in declaration order,
collect per-field errors, and either throw a `ValidationError` carrying the
whole error list or return the result object.  The schema is the ordered
entry list of the schema object; the raw source is a partial mapping from
keys to strings. -/
def validate (rt : JsRuntime) (schema : List (String × EnvVarConfig))
    (env : String → Option String) :
    Except (List String) (List (String × Value)) :=
  let r := schema.foldl (validateStep rt env) ([], [])
  if r.1.isEmpty then .ok r.2 else .error r.1

/-- Whether an `Except` is an error. -/
def isErr {ε α : Type} : Except ε α → Bool
  | .error _ => true
  | .ok _ => false


/-- The aggregated-error entry a field contributes, if it fails. -/
def fieldError (rt : JsRuntime) (env : String → Option String)
    (kv : String × EnvVarConfig) : Option String :=
  match resolveField rt kv.2 (env kv.1) with
  | .error e => some (kv.1 ++ ": " ++ e)
  | .ok _ => none

/-- The value a field resolves to when it does not fail. -/
def resolvedValue (rt : JsRuntime) (env : String → Option String)
    (kv : String × EnvVarConfig) : Value :=
  match resolveField rt kv.2 (env kv.1) with
  | .ok v => v
  | .error _ => Value.undef

/-! ## The `.env` file collaborator (`EnvFileHandler`) -/

/-- A JavaScript line terminator, which the regex metacharacter `.` does not
match. -/
def isLineTerm (c : Char) : Bool :=
  c == '\n' || c == '\r' || c.toNat == 0x2028 || c.toNat == 0x2029

/-- The match `trimmedLine.match(/^([^=]+)=(.*)$/)` from
`EnvFileHandler.parse`: a nonempty run of non-`=` characters, `=`, then a
remainder free of line terminators (which `.` cannot match). -/
def matchKeyValue (t : String) : Option (String × String) :=
  let cs := t.toList
  let k := cs.takeWhile (· != '=')
  let rest := cs.dropWhile (· != '=')
  match rest with
  | '=' :: vs =>
    if k.isEmpty then none
    else if vs.any isLineTerm then none
    else some (k.asString, vs.asString)
  | _ => none

/-- The single-quote character as a string. -/
def squote : String := (Char.ofNat 39).toString

/-- The per-line body of `EnvFileHandler.parse`: skip blank lines and
comments, split at the first `=`, trim key and value, and strip one pair of
matching surrounding quotes. -/
def parseEnvLine (line : String) : Option (String × String) :=
  let t := jsTrim line
  if strIsEmpty t || strStartsWith t "#" then none
  else
    match matchKeyValue t with
    | none => none
    | some kv =>
      let key := jsTrim kv.1
      let v0 := jsTrim kv.2
      let value :=
        if (strStartsWith v0 "\"" && strEndsWith v0 "\"") ||
            (strStartsWith v0 squote && strEndsWith v0 squote) then
          ((v0.toList.drop 1).dropLast).asString
        else v0
      some (key, value)

/-- `content.split("\n")` at the character level (keeps empty pieces). -/
def splitLines : List Char → List (List Char)
  | [] => [[]]
  | c :: rest =>
    if c = '\n' then [] :: splitLines rest
    else
      match splitLines rest with
      | [] => [[c]]
      | l :: ls => (c :: l) :: ls

/-- `content.split("\n")` on strings. -/
def jsSplitNL (s : String) : List String :=
  (splitLines s.toList).map List.asString

/-- One line of the fold in `EnvFileHandler.parse`: record the parsed
key-value pair, if any. -/
def parseStep (env : List (String × String)) (line : String) :
    List (String × String) :=
  match parseEnvLine line with
  | none => env
  | some kv => jsObjSet env kv.1 kv.2

/-- `EnvFileHandler.parse` applied to file content that was read
successfully: fold the parsed lines into an object. -/
def parseEnvContent (content : String) : List (String × String) :=
  (jsSplitNL content).foldl parseStep []

/-- The string form of each type tag, as interpolated into `# Type: ...`. -/
def typeTagStr : EnvVarType → String
  | .tstring => "string"
  | .tnumber => "number"
  | .tboolean => "boolean"
  | .turl => "url"
  | .temail => "email"
  | .tjson => "json"

/-- JavaScript `String(v)` on a resolved value (numbers and JSON structures
go through the abstract runtime). -/
def jsValueToString (rt : JsRuntime) : Value → String
  | .undef => "undefined"
  | .vstr s => s
  | .vnum n => rt.numToString n
  | .vbool b => if b then "true" else "false"
  | .vjson j => rt.jsonToString j

/-- `EnvFileHandler.getExampleValue`: the default, stringified, if there is
one, else a fixed example per type. -/
def getExampleValue (rt : JsRuntime) (config : EnvVarConfig) : String :=
  match config.default with
  | some d => jsValueToString rt d
  | none =>
    match config.type with
    | .tstring => "example_value"
    | .tnumber => "3000"
    | .tboolean => "true"
    | .turl => "https://example.com"
    | .temail => "user@example.com"
    | .tjson => "\x7b\"key\": \"value\"\x7d"

/-- The lines `EnvFileHandler.generateExample` pushes for one field:
optional description comment (skipped when the description is falsy), type,
requiredness, default and validator annotations, then `KEY=example` and a
blank line. -/
def fieldLines (rt : JsRuntime) (k : String) (config : EnvVarConfig) :
    List String :=
  (match config.description with
    | some d => if d = "" then [] else ["# " ++ d]
    | none => []) ++
  ["# Type: " ++ typeTagStr config.type] ++
  (if config.required then ["# Required: true"] else []) ++
  (match config.default with
    | some d => ["# Default: " ++ jsValueToString rt d]
    | none => []) ++
  (match config.validator with
    | some _ => ["# Note: Has custom validation"]
    | none => []) ++
  [k ++ "=" ++ getExampleValue rt config, ""]

/-- The full `lines` array of `EnvFileHandler.generateExample`; `now` is the
interpolated `new Date().toISOString()`. -/
def generateExampleLines (rt : JsRuntime) (now : String)
    (schema : List (String × EnvVarConfig)) : List String :=
  schema.foldl (fun acc kv => acc ++ fieldLines rt kv.1 kv.2)
    ["# Generated Environment Variables", "# Generated on " ++ now, ""]

/-- `lines.join("\n")`. -/
def joinNL : List String → String
  | [] => ""
  | [l] => l
  | l :: ls => l ++ "\n" ++ joinNL ls

/-- The file content `EnvFileHandler.generateExample` writes. -/
def generateExampleContent (rt : JsRuntime) (now : String)
    (schema : List (String × EnvVarConfig)) : String :=
  joinNL (generateExampleLines rt now schema)

/-- The `ValidationResult` record of `EnvFileHandler.validate`. -/
structure FileReport where
  missing : List String
  invalid : List String
  valid : List String
deriving DecidableEq

/-- The single-key raw source `{[key]: v}`. -/
def singletonEnv (k v : String) : String → Option String :=
  fun k2 => if k2 = k then some v else none

/-- One iteration of the loop in `EnvFileHandler.validate`.  Note the guard
is the truthiness test `!envContent[key]`, so an empty-string entry takes
the missing branch. -/
def fileValidateStep (rt : JsRuntime) (envC : List (String × String))
    (res : FileReport) (kv : String × EnvVarConfig) : FileReport :=
  match jsObjGet envC kv.1 with
  | none =>
    if kv.2.required && kv.2.default.isNone then
      { res with missing := res.missing ++ [kv.1] }
    else res
  | some v =>
    if v = "" then
      if kv.2.required && kv.2.default.isNone then
        { res with missing := res.missing ++ [kv.1] }
      else res
    else
      match validate rt [(kv.1, kv.2)] (singletonEnv kv.1 v) with
      | .ok _ => { res with valid := res.valid ++ [kv.1] }
      | .error _ => { res with invalid := res.invalid ++ [kv.1] }

/-- `EnvFileHandler.validate` on file content that was read successfully. -/
def fileValidate (rt : JsRuntime) (schema : List (String × EnvVarConfig))
    (content : String) : FileReport :=
  schema.foldl (fileValidateStep rt (parseEnvContent content)) ⟨[], [], []⟩

/-! ## Witness fixtures and classification marks -/

/-- Fixture runtime for the closed witnesses. -/
def rtW : JsRuntime := ⟨fun _ => true, fun _ => none, fun _ => "0", fun _ => "null"⟩

/-- A required string field with no default. -/
def reqStr : EnvVarConfig := { type := .tstring, required := true }

/-- An optional string field with no default. -/
def optStr : EnvVarConfig := { type := .tstring }

/-- An optional boolean field with no default. -/
def boolCfg : EnvVarConfig := { type := .tboolean }

/-- A string field whose predicate throws `Error("boom")`. -/
def throwingCfg : EnvVarConfig :=
  { type := .tstring, validator := some (fun _ => .error "boom") }

/-- The `missing` bucket mark of one field in `EnvFileHandler.validate`:
pushed when the entry is falsy (absent or the empty string) and the field
is required without a default. -/
def missingMark (envC : List (String × String)) (kv : String × EnvVarConfig) :
    Option String :=
  match jsObjGet envC kv.1 with
  | none => if kv.2.required && kv.2.default.isNone then some kv.1 else none
  | some v =>
    if v = "" then
      if kv.2.required && kv.2.default.isNone then some kv.1 else none
    else none

/-- The `invalid` bucket mark: pushed when the entry is a non-empty string
on which the single-field `EnvValidator.validate` call throws. -/
def invalidMark (rt : JsRuntime) (envC : List (String × String))
    (kv : String × EnvVarConfig) : Option String :=
  match jsObjGet envC kv.1 with
  | none => none
  | some v =>
    if v = "" then none
    else
      match validate rt [(kv.1, kv.2)] (singletonEnv kv.1 v) with
      | .ok _ => none
      | .error _ => some kv.1

/-- The `valid` bucket mark: pushed when the entry is a non-empty string on
which the single-field `EnvValidator.validate` call succeeds. -/
def validMark (rt : JsRuntime) (envC : List (String × String))
    (kv : String × EnvVarConfig) : Option String :=
  match jsObjGet envC kv.1 with
  | none => none
  | some v =>
    if v = "" then none
    else
      match validate rt [(kv.1, kv.2)] (singletonEnv kv.1 v) with
      | .ok _ => some kv.1
      | .error _ => none


/-- Whether a string contains no JavaScript line terminator. -/
def isSingleLine (s : String) : Bool :=
  s.toList.all (fun c => !isLineTerm c)

/-- A schema key that survives the `.env` line syntax unchanged: nonempty,
equal to its own trim, free of `=` and of line terminators, and not opening
a comment. -/
def goodKey (k : String) : Bool :=
  !(strIsEmpty k) && decide (jsTrim k = k) &&
  k.toList.all (fun c => decide (c ≠ '=')) && isSingleLine k &&
  !(strStartsWith k "#")

/-- A value string that `EnvFileHandler.parse` returns verbatim: equal to
its own trim, free of line terminators, and not wrapped in matching single
or double quotes. -/
def goodValue (v : String) : Bool :=
  decide (jsTrim v = v) && isSingleLine v &&
  !((strStartsWith v "\"" && strEndsWith v "\"") ||
    (strStartsWith v squote && strEndsWith v squote))

/-! ## Helper lemmas about the engine loop -/

theorem applyValidator_some (f : Value → Except String Bool) (v : Value) :
    applyValidator (some f) v =
      match f v with
      | .error e => .error e
      | .ok b => if b then .ok v else .error "Custom validation failed" := rfl


theorem foldl_validateStep_fst (rt : JsRuntime) (env : String → Option String) :
    ∀ (schema : List (String × EnvVarConfig)) (es : List String)
      (res : List (String × Value)),
      (schema.foldl (validateStep rt env) (es, res)).1 =
        es ++ schema.filterMap (fieldError rt env) := by
  intro schema
  induction schema with
  | nil => intro es res; simp
  | cons kv rest ih =>
    intro es res
    rw [List.foldl_cons, List.filterMap_cons]
    cases h : resolveField rt kv.2 (env kv.1) with
    | ok v =>
      have hstep : validateStep rt env (es, res) kv = (es, jsObjSet res kv.1 v) := by
        unfold validateStep; rw [h]
      have hfe : fieldError rt env kv = none := by
        unfold fieldError; rw [h]
      rw [hstep, hfe, ih]
    | error e =>
      have hstep : validateStep rt env (es, res) kv =
          (es ++ [kv.1 ++ ": " ++ e], res) := by
        unfold validateStep; rw [h]
      have hfe : fieldError rt env kv = some (kv.1 ++ ": " ++ e) := by
        unfold fieldError; rw [h]
      rw [hstep, hfe, ih, List.append_assoc]
      rfl

theorem jsObjSet_fresh {α : Type} (res : List (String × α)) (k : String) (v : α)
    (h : jsObjGet res k = none) : jsObjSet res k v = res ++ [(k, v)] := by
  induction res with
  | nil => rfl
  | cons kv rest ih =>
    unfold jsObjGet at h
    unfold jsObjSet
    by_cases hk : kv.1 = k
    · rw [if_pos hk] at h; exact absurd h (by simp)
    · rw [if_neg hk] at h
      cases kv with
      | mk k2 v2 =>
        simp only at hk
        rw [if_neg hk, ih h, List.cons_append]

theorem jsObjGet_append_single_ne {α : Type} (res : List (String × α))
    (k k1 : String) (v : α) (h : k1 ≠ k) :
    jsObjGet (res ++ [(k1, v)]) k = jsObjGet res k := by
  induction res with
  | nil => simp [jsObjGet, h]
  | cons kv rest ih =>
    unfold jsObjGet
    by_cases hk : kv.1 = k
    · rw [List.cons_append]; simp only [hk, if_pos rfl]; rfl
    · rw [List.cons_append]
      show (if kv.1 = k then some kv.2 else jsObjGet (rest ++ [(k1, v)]) k) = _
      rw [if_neg hk, if_neg hk, ih]

theorem foldl_validateStep_snd (rt : JsRuntime) (env : String → Option String) :
    ∀ (schema : List (String × EnvVarConfig)) (es : List String)
      (res : List (String × Value)),
      (∀ kv ∈ schema, isErr (resolveField rt kv.2 (env kv.1)) = false) →
      (∀ kv ∈ schema, jsObjGet res kv.1 = none) →
      (schema.map Prod.fst).Nodup →
      (schema.foldl (validateStep rt env) (es, res)).2 =
        res ++ schema.map (fun kv => (kv.1, resolvedValue rt env kv)) := by
  intro schema
  induction schema with
  | nil => intro es res _ _ _; simp
  | cons kv rest ih =>
    intro es res hok hfresh hnd
    rw [List.foldl_cons, List.map_cons]
    cases h : resolveField rt kv.2 (env kv.1) with
    | error e =>
      have := hok kv (List.mem_cons_self _ _)
      rw [h] at this
      exact absurd this (by simp [isErr])
    | ok v =>
      have hstep : validateStep rt env (es, res) kv = (es, jsObjSet res kv.1 v) := by
        unfold validateStep; rw [h]
      have hv : resolvedValue rt env kv = v := by
        unfold resolvedValue; rw [h]
      have hset : jsObjSet res kv.1 v = res ++ [(kv.1, v)] :=
        jsObjSet_fresh res kv.1 v (hfresh kv (List.mem_cons_self _ _))
      have hnotmem : kv.1 ∉ rest.map Prod.fst := by
        have := hnd
        rw [List.map_cons, List.nodup_cons] at this
        exact this.1
      have hfresh' : ∀ kv2 ∈ rest, jsObjGet (res ++ [(kv.1, v)]) kv2.1 = none := by
        intro kv2 hm
        have hne : kv.1 ≠ kv2.1 := by
          intro he
          exact hnotmem (he ▸ List.mem_map_of_mem Prod.fst hm)
        rw [jsObjGet_append_single_ne res kv2.1 kv.1 v hne]
        exact hfresh kv2 (List.mem_cons_of_mem _ hm)
      have hok' : ∀ kv2 ∈ rest, isErr (resolveField rt kv2.2 (env kv2.1)) = false :=
        fun kv2 hm => hok kv2 (List.mem_cons_of_mem _ hm)
      have hnd' : (rest.map Prod.fst).Nodup := by
        have := hnd
        rw [List.map_cons, List.nodup_cons] at this
        exact this.2
      rw [hstep, hset, ih es (res ++ [(kv.1, v)]) hok' hfresh' hnd', hv,
        List.append_assoc, List.singleton_append]

theorem foldl_validateStep_env_agree (rt : JsRuntime) :
    ∀ (schema : List (String × EnvVarConfig)) (env1 env2 : String → Option String),
      (∀ kv ∈ schema, env1 kv.1 = env2 kv.1) →
      ∀ acc, schema.foldl (validateStep rt env1) acc =
        schema.foldl (validateStep rt env2) acc := by
  intro schema
  induction schema with
  | nil => intro env1 env2 _ acc; rfl
  | cons kv rest ih =>
    intro env1 env2 h acc
    rw [List.foldl_cons, List.foldl_cons]
    have hstep : validateStep rt env1 acc kv = validateStep rt env2 acc kv := by
      unfold validateStep
      rw [h kv (List.mem_cons_self _ _)]
    rw [hstep]
    exact ih env1 env2 (fun kv2 hm => h kv2 (List.mem_cons_of_mem _ hm)) _

/-! ## Claim theorems: the validation engine -/

/-- C1: a single `validate` call reports every failing field.  The engine
never stops the pass on one field: whenever at least one field fails, the
whole call yields the aggregated error whose message list is exactly
`schema.filterMap (fieldError rt env)` — one entry per failing schema
entry, in schema-declaration order, each formatted
`<fieldName>: <reason>` — and no (partial) result mapping is returned. -/
theorem validate_reports_all_failures (rt : JsRuntime)
    (schema : List (String × EnvVarConfig)) (env : String → Option String)
    (h : ∃ kv ∈ schema, isErr (resolveField rt kv.2 (env kv.1)) = true) :
    validate rt schema env = .error (schema.filterMap (fieldError rt env)) := by
  obtain ⟨kv, hmem, herr⟩ := h
  have hfst := foldl_validateStep_fst rt env schema [] []
  rw [List.nil_append] at hfst
  have hne : schema.filterMap (fieldError rt env) ≠ [] := by
    intro hnil
    rw [List.filterMap_eq_nil_iff] at hnil
    have hkv := hnil kv hmem
    unfold fieldError at hkv
    cases hres : resolveField rt kv.2 (env kv.1) with
    | ok v => rw [hres] at herr; simp [isErr] at herr
    | error e => rw [hres] at hkv; simp at hkv
  unfold validate
  simp only []
  rw [hfst]
  cases hfm : schema.filterMap (fieldError rt env) with
  | nil => exact absurd hfm hne
  | cons a l => simp

/-- Witness for C1: three absent required fields produce the three-entry
aggregated error, in schema order. -/
theorem validate_reports_all_failures_witness :
    validate rtW [("A", reqStr), ("B", reqStr), ("C", reqStr)] (fun _ => none) =
      .error ["A: Required value is missing", "B: Required value is missing",
        "C: Required value is missing"] :=
  (validate_reports_all_failures rtW
    [("A", reqStr), ("B", reqStr), ("C", reqStr)] (fun _ => none)
    ⟨("A", reqStr), List.mem_cons_self _ _, rfl⟩).trans rfl

/-- C5: when no field fails, `validate` returns a result mapping with
exactly one entry per schema key, in schema order, each carrying the
field's resolved value — a field that resolved to an absent optional
default appears with the explicit `undefined` value. -/
theorem validate_success_complete (rt : JsRuntime)
    (schema : List (String × EnvVarConfig)) (env : String → Option String)
    (hnd : (schema.map Prod.fst).Nodup)
    (hok : ∀ kv ∈ schema, isErr (resolveField rt kv.2 (env kv.1)) = false) :
    validate rt schema env =
      .ok (schema.map (fun kv => (kv.1, resolvedValue rt env kv))) := by
  have hfst := foldl_validateStep_fst rt env schema [] []
  rw [List.nil_append] at hfst
  have hnil : schema.filterMap (fieldError rt env) = [] := by
    rw [List.filterMap_eq_nil_iff]
    intro kv hmem
    have hkv := hok kv hmem
    unfold fieldError
    cases hres : resolveField rt kv.2 (env kv.1) with
    | ok v => rfl
    | error e => rw [hres] at hkv; simp [isErr] at hkv
  have hsnd := foldl_validateStep_snd rt env schema [] [] hok
    (by intro kv _; rfl) hnd
  rw [List.nil_append] at hsnd
  unfold validate
  simp only []
  rw [hfst, hnil, hsnd]
  rfl

/-- Witness for C5: an absent optional field appears as `undefined` next to
a coerced boolean. -/
theorem validate_success_complete_witness :
    validate rtW [("OPT", optStr), ("DEBUG", boolCfg)]
      (fun k => if k = "DEBUG" then some "TRUE" else none) =
      .ok [("OPT", Value.undef), ("DEBUG", Value.vbool true)] :=
  (validate_success_complete rtW [("OPT", optStr), ("DEBUG", boolCfg)]
    (fun k => if k = "DEBUG" then some "TRUE" else none)
    (by decide) (by decide)).trans rfl

/-- C8: the engine is a pure function of schema and source with no state
across calls — in particular the outcome depends only on the raw source's
values at the schema's keys, so two calls with the same schema and the same
source are equal. -/
theorem validate_deterministic (rt : JsRuntime)
    (schema : List (String × EnvVarConfig)) (env1 env2 : String → Option String)
    (h : ∀ kv ∈ schema, env1 kv.1 = env2 kv.1) :
    validate rt schema env1 = validate rt schema env2 := by
  unfold validate
  rw [foldl_validateStep_env_agree rt schema env1 env2 h]

/-- Witness for C8: two extensionally-agreeing sources give the same
outcome. -/
theorem validate_deterministic_witness :
    validate rtW [("A", optStr)] (fun k => if k = "A" then some "x" else none) =
      validate rtW [("A", optStr)] (fun _ => some "x") :=
  validate_deterministic rtW [("A", optStr)] _ _
    (by
      intro kv hm
      rw [List.mem_singleton] at hm
      subst hm
      simp)

/-- C3: boolean coercion accepts exactly the four spellings
case-insensitively: a raw string whose lowercase form is `true` or `1`
yields `true`, one whose lowercase form is `false` or `0` yields `false`,
and every other string (including `yes` and `no`) fails with
`Invalid boolean`. -/
theorem boolean_coercion_exact (rt : JsRuntime) (r : Bool) (d : Option Value)
    (vl : Option (Value → Except String Bool)) (ds : Option String)
    (v : String) :
    parseValue rt (some v) ⟨.tboolean, r, d, vl, ds⟩ =
      if asciiLower v = "true" ∨ asciiLower v = "1" then .ok (.vbool true)
      else if asciiLower v = "false" ∨ asciiLower v = "0" then .ok (.vbool false)
      else .error "Invalid boolean" := by
  show (if !(jsIncludes ["true", "false", "1", "0"] (asciiLower v)) then
      Except.error "Invalid boolean"
    else Except.ok (Value.vbool (jsIncludes ["true", "1"] (asciiLower v)))) = _
  generalize asciiLower v = w
  by_cases h1 : w = "true" <;> by_cases h2 : w = "false" <;>
    by_cases h3 : w = "1" <;> by_cases h4 : w = "0" <;>
      simp_all [jsIncludes]

/-- C9: for a number-typed field, a present raw value consisting only of
JavaScript whitespace (in particular the empty string) does not fail:
`Number()` coerces it to `0`. -/
theorem number_whitespace_is_zero (rt : JsRuntime) (r : Bool) (d : Option Value)
    (vl : Option (Value → Except String Bool)) (ds : Option String)
    (s : String) (h : ∀ c ∈ s.toList, isJsWs c = true) :
    parseValue rt (some s) ⟨.tnumber, r, d, vl, ds⟩ =
      .ok (.vnum (.finite 0)) := by
  have htrim : jsTrimList s.toList = [] := by
    unfold jsTrimList
    have h1 : s.toList.dropWhile isJsWs = [] :=
      List.dropWhile_eq_nil_iff.mpr h
    rw [h1]
    rfl
  have hnum : jsStringToNumber s = some (.finite 0) := by
    unfold jsStringToNumber
    rw [htrim]
  show (match jsStringToNumber s with
    | none => Except.error "Invalid number"
    | some n => Except.ok (Value.vnum n)) = .ok (.vnum (.finite 0))
  rw [hnum]

/-- Witness for C9: a tab-space-newline string coerces to the number `0`. -/
theorem number_whitespace_is_zero_witness :
    parseValue rtW (some " \t\n ")
      ⟨.tnumber, false, none, none, none⟩ = .ok (.vnum (.finite 0)) :=
  number_whitespace_is_zero rtW false none none none " \t\n " (by decide)

/-- C4: when the raw value is absent but a default is configured, the field
resolves by running the custom-validator guard on the default exactly as it
is run on the value parsed from a supplied string — in particular a falsy
predicate result fails the field with `Custom validation failed`; and when
the field is absent, required and defaultless, it fails with
`Required value is missing` no matter what the validator is (the predicate
is never invoked on a step-1 error). -/
theorem default_predicate_and_missing (rt : JsRuntime) (cfg : EnvVarConfig) :
    (∀ d, cfg.default = some d →
      (resolveField rt cfg none = applyValidator cfg.validator d ∧
        ∀ f, cfg.validator = some f → f d = .ok false →
          resolveField rt cfg none = .error "Custom validation failed")) ∧
    (∀ s v, parseValue rt (some s) cfg = .ok v →
      resolveField rt cfg (some s) = applyValidator cfg.validator v) ∧
    (cfg.required = true → cfg.default = none →
      ∀ vl, resolveField rt { cfg with validator := vl } none =
        .error "Required value is missing") := by
  refine ⟨?_, ?_, ?_⟩
  · intro d hd
    have hparse : parseValue rt none cfg = .ok d := by
      unfold parseValue
      rw [hd]
      simp
    have hres : resolveField rt cfg none = applyValidator cfg.validator d := by
      unfold resolveField
      rw [hparse]
    refine ⟨hres, ?_⟩
    intro f hf hfd
    rw [hres, hf, applyValidator_some, hfd]
    rfl
  · intro s v hp
    unfold resolveField
    rw [hp]
  · intro hreq hd vl
    have hparse : parseValue rt none { cfg with validator := vl } =
        .error "Required value is missing" := by
      unfold parseValue
      simp [hreq, hd]
    unfold resolveField
    rw [hparse]

/-- Witness for C4: a falsy predicate on a default fails the field, and a
missing required field reports the step-1 message with the same predicate
configured. -/
theorem default_predicate_and_missing_witness :
    resolveField rtW
      { type := .tstring, default := some (.vstr "d"),
        validator := some (fun _ => .ok false) } none =
      .error "Custom validation failed" ∧
    resolveField rtW
      { reqStr with validator := some (fun _ => .ok false) } none =
      .error "Required value is missing" :=
  ⟨((default_predicate_and_missing rtW
      { type := .tstring, default := some (.vstr "d"),
        validator := some (fun _ => .ok false) }).1
      (.vstr "d") rfl).2 (fun _ => .ok false) rfl rfl,
    (default_predicate_and_missing rtW reqStr).2.2 rfl rfl
      (some (fun _ => .ok false))⟩

/-- C10: an optional field with no default but with a predicate runs the
predicate on `undefined` when the raw value is absent: the resolution
outcome is exactly the validator guard applied to `undefined`, and a falsy
result fails the field with `Custom validation failed`. -/
theorem optional_absent_runs_predicate (rt : JsRuntime) (cfg : EnvVarConfig)
    (f : Value → Except String Bool)
    (hreq : cfg.required = false) (hd : cfg.default = none)
    (hv : cfg.validator = some f) :
    resolveField rt cfg none = applyValidator (some f) Value.undef ∧
    (f Value.undef = .ok false →
      resolveField rt cfg none = .error "Custom validation failed") := by
  have hparse : parseValue rt none cfg = .ok Value.undef := by
    unfold parseValue
    simp [hreq, hd]
  have hres : resolveField rt cfg none = applyValidator (some f) Value.undef := by
    unfold resolveField
    rw [hparse, hv]
  refine ⟨hres, fun hfd => ?_⟩
  rw [hres, applyValidator_some, hfd]
  rfl

/-- Witness for C10: an always-false predicate on an absent optional field
fails it. -/
theorem optional_absent_runs_predicate_witness :
    resolveField rtW { type := .tstring, validator := some (fun _ => .ok false) }
      none = .error "Custom validation failed" :=
  (optional_absent_runs_predicate rtW
    { type := .tstring, validator := some (fun _ => .ok false) }
    (fun _ => .ok false) rfl rfl rfl).2 rfl

/-- Counterexample to C2 as stated: a predicate that throws does NOT produce
the entry `A: Custom validation failed` — the thrown error's own message is
aggregated instead (`A: boom`). -/
theorem throwing_predicate_keeps_own_message :
    validate rtW [("A", throwingCfg)] (fun _ => some "x") = .error ["A: boom"] ∧
    ("A: boom" : String) ≠ "A: Custom validation failed" :=
  ⟨rfl, by decide⟩

/-- C2 (amended): a throwing predicate is captured into the aggregated
error on the same control path as a falsy one, but the failure reason is
the thrown error's own message; only a falsy (non-throwing) predicate
result is normalized to `Custom validation failed`. -/
theorem predicate_failure_messages (rt : JsRuntime) (cfg : EnvVarConfig)
    (f : Value → Except String Bool) (s : String) (v : Value)
    (hv : cfg.validator = some f) (hp : parseValue rt (some s) cfg = .ok v) :
    (∀ m, f v = .error m → resolveField rt cfg (some s) = .error m) ∧
    (f v = .ok false →
      resolveField rt cfg (some s) = .error "Custom validation failed") := by
  have hres : resolveField rt cfg (some s) = applyValidator cfg.validator v := by
    unfold resolveField
    rw [hp]
  constructor
  · intro m hm
    rw [hres, hv, applyValidator_some, hm]
  · intro hfd
    rw [hres, hv, applyValidator_some, hfd]
    rfl

/-- Witness for C2 (amended): the thrown message `boom` becomes the failure
reason. -/
theorem predicate_failure_messages_witness :
    resolveField rtW throwingCfg (some "x") = .error "boom" :=
  (predicate_failure_messages rtW throwingCfg (fun _ => .error "boom") "x"
    (.vstr "x") rfl rfl).1 "boom" rfl

/-! ## Claim theorems: the file collaborator -/

theorem fileValidate_foldl (rt : JsRuntime) (envC : List (String × String)) :
    ∀ (schema : List (String × EnvVarConfig)) (res : FileReport),
      schema.foldl (fileValidateStep rt envC) res =
        ⟨res.missing ++ schema.filterMap (missingMark envC),
          res.invalid ++ schema.filterMap (invalidMark rt envC),
          res.valid ++ schema.filterMap (validMark rt envC)⟩ := by
  intro schema
  induction schema with
  | nil => intro res; simp
  | cons kv rest ih =>
    intro res
    rw [List.foldl_cons, ih,
      List.filterMap_cons, List.filterMap_cons, List.filterMap_cons]
    cases hget : jsObjGet envC kv.1 with
    | none =>
      simp only [fileValidateStep, missingMark, invalidMark, validMark, hget]
      by_cases hreq : (kv.2.required && kv.2.default.isNone) = true
      · simp [hreq]
      · simp [hreq]
    | some v =>
      simp only [fileValidateStep, missingMark, invalidMark, validMark, hget]
      by_cases hv : v = ""
      · subst hv
        by_cases hreq : (kv.2.required && kv.2.default.isNone) = true
        · simp [hreq]
        · simp [hreq]
      · cases hval : validate rt [(kv.1, kv.2)] (singletonEnv kv.1 v) with
        | ok r => simp [hv, hval]
        | error e => simp [hv, hval]

/-- C6 (amended): `EnvFileHandler.validate` classifies each field by the
truthiness of its file entry: `missing` collects exactly the fields whose
entry is falsy (absent from the file or mapped to the empty string) and
that are required without a default; `invalid` collects exactly the fields
whose entry is a non-empty string that fails single-field resolution;
`valid` collects exactly the fields whose entry is a non-empty string that
resolves cleanly.  A field with a falsy entry that is not
required-without-default lands in no bucket at all. -/
theorem fileValidate_classifies (rt : JsRuntime)
    (schema : List (String × EnvVarConfig)) (content : String) :
    fileValidate rt schema content =
      ⟨schema.filterMap (missingMark (parseEnvContent content)),
        schema.filterMap (invalidMark rt (parseEnvContent content)),
        schema.filterMap (validMark rt (parseEnvContent content))⟩ := by
  unfold fileValidate
  rw [fileValidate_foldl]
  simp

/-- Counterexample to C6 as stated: on the file `A=`, the key `A` is present
in the file (with the empty value), yet a required defaultless `A` is
classified `missing`; and the optional field `B`, though it resolves
cleanly when absent, appears in no bucket at all. -/
theorem fileValidate_empty_value_counterexample :
    jsObjGet (parseEnvContent "A=") "A" = some "" ∧
    fileValidate rtW [("A", reqStr), ("B", optStr)] "A=" = ⟨["A"], [], []⟩ ∧
    isErr (resolveField rtW optStr none) = false :=
  ⟨rfl, rfl, rfl⟩

/-! ## Helper lemmas for the generate/parse round trip -/

theorem dropWhile_head_false {α : Type} (p : α → Bool) (l : List α)
    (h : ∀ c, l.head? = some c → p c = false) : List.dropWhile p l = l := by
  cases l with
  | nil => rfl
  | cons c cs => simp [List.dropWhile_cons, h c rfl]

theorem head?_append_left {α : Type} (l1 l2 : List α) (h : l1 ≠ []) :
    (l1 ++ l2).head? = l1.head? := by
  cases l1 with
  | nil => exact absurd rfl h
  | cons a l => rfl

theorem dropWhile_append_stop {α : Type} (p : α → Bool) (c : α) (l2 : List α)
    (hc : p c = false) :
    ∀ l1, List.dropWhile p (l1 ++ c :: l2) = List.dropWhile p l1 ++ c :: l2 := by
  intro l1
  induction l1 with
  | nil => simp [List.dropWhile_cons, hc]
  | cons a l ih =>
    by_cases ha : p a = true
    · simp [List.dropWhile_cons, ha, ih]
    · rw [Bool.not_eq_true] at ha
      simp [List.dropWhile_cons, ha]

theorem takeWhile_append_stop {α : Type} (p : α → Bool) (c : α) (l2 : List α)
    (hc : p c = false) :
    ∀ l1, (∀ a ∈ l1, p a = true) →
      List.takeWhile p (l1 ++ c :: l2) = l1 := by
  intro l1
  induction l1 with
  | nil => intro _; simp [List.takeWhile_cons, hc]
  | cons a l ih =>
    intro h
    simp [List.takeWhile_cons, h a (List.mem_cons_self _ _),
      ih (fun b hb => h b (List.mem_cons_of_mem _ hb))]

theorem jsTrim_toList (s : String) : (jsTrim s).toList = jsTrimList s.toList :=
  List.toList_asString _

theorem jsTrim_self_list (s : String) (h : jsTrim s = s) :
    jsTrimList s.toList = s.toList := by
  have h2 := congrArg String.toList h
  rw [jsTrim_toList] at h2
  exact h2

theorem jsTrim_self_head (s : String) (h : jsTrim s = s) :
    ∀ c, s.toList.head? = some c → isJsWs c = false := by
  intro c hc
  by_contra hws
  rw [Bool.not_eq_false] at hws
  have hl := jsTrim_self_list s h
  cases hlist : s.toList with
  | nil => rw [hlist] at hc; exact absurd hc (by simp)
  | cons c0 cs =>
    rw [hlist] at hc hl
    have hc0 : c0 = c := by simpa using hc
    subst hc0
    have h2 : (jsTrimList (c0 :: cs)).length ≤ cs.length := by
      unfold jsTrimList
      rw [List.dropWhile_cons_of_pos hws, List.length_reverse]
      calc (List.dropWhile isJsWs (List.dropWhile isJsWs cs).reverse).length
          ≤ (List.dropWhile isJsWs cs).reverse.length :=
            (List.dropWhile_sublist _).length_le
        _ = (List.dropWhile isJsWs cs).length := List.length_reverse _
        _ ≤ cs.length := (List.dropWhile_sublist _).length_le
    rw [hl] at h2
    rw [List.length_cons] at h2
    omega

theorem jsTrim_self_revhead (s : String) (h : jsTrim s = s) :
    ∀ c, s.toList.reverse.head? = some c → isJsWs c = false := by
  intro c hc
  by_contra hws
  rw [Bool.not_eq_false] at hws
  have hl := jsTrim_self_list s h
  by_cases hmn : List.dropWhile isJsWs s.toList = []
  · have hnil : jsTrimList s.toList = [] := by
      unfold jsTrimList
      rw [hmn]
      rfl
    rw [hl] at hnil
    rw [hnil] at hc
    exact absurd hc (by simp)
  · have hsplit : List.takeWhile isJsWs s.toList ++
        List.dropWhile isJsWs s.toList = s.toList :=
      List.takeWhile_append_dropWhile isJsWs s.toList
    have hrev : s.toList.reverse =
        (List.dropWhile isJsWs s.toList).reverse ++
          (List.takeWhile isJsWs s.toList).reverse := by
      conv_lhs => rw [← hsplit]
      rw [List.reverse_append]
    have hrevne : (List.dropWhile isJsWs s.toList).reverse ≠ [] := by
      simpa using hmn
    rw [hrev, head?_append_left _ _ hrevne] at hc
    cases hm : (List.dropWhile isJsWs s.toList).reverse with
    | nil => exact absurd hm hrevne
    | cons a as =>
      rw [hm] at hc
      have ha : a = c := by simpa using hc
      subst ha
      have h2 : (jsTrimList s.toList).length ≤ as.length := by
        unfold jsTrimList
        rw [hm, List.dropWhile_cons_of_pos hws, List.length_reverse]
        exact (List.dropWhile_sublist _).length_le
      have h3 : s.toList.length = (jsTrimList s.toList).length := by rw [hl]
      have h4 : (List.dropWhile isJsWs s.toList).reverse.length ≤
          s.toList.length := by
        rw [List.length_reverse]
        exact (List.dropWhile_sublist _).length_le
      rw [hm] at h4
      rw [List.length_cons] at h4
      omega

theorem jsTrimList_no_trim (l : List Char)
    (hh : ∀ c, l.head? = some c → isJsWs c = false)
    (hr : ∀ c, l.reverse.head? = some c → isJsWs c = false) :
    jsTrimList l = l := by
  unfold jsTrimList
  rw [dropWhile_head_false isJsWs l hh, dropWhile_head_false isJsWs l.reverse hr,
    List.reverse_reverse]

theorem toList_append (s t : String) : (s ++ t).toList = s.toList ++ t.toList :=
  rfl

/-- Trimming a `KEY=VALUE` line whose key is trimmed and nonempty only
shaves trailing whitespace off the value part. -/
theorem jsTrim_kv_line (k w : String)
    (hk1 : strIsEmpty k = false) (hk2 : jsTrim k = k) :
    (jsTrim (k ++ "=" ++ w)).toList =
      k.toList ++ '=' :: (List.dropWhile isJsWs w.toList.reverse).reverse := by
  have hkne : k.toList ≠ [] := by
    intro hnil
    rw [strIsEmpty, hnil] at hk1
    simp at hk1
  have hline : (k ++ "=" ++ w).toList = k.toList ++ '=' :: w.toList := by
    rw [toList_append, toList_append]
    simp
  rw [jsTrim_toList, hline]
  unfold jsTrimList
  have hstep1 : List.dropWhile isJsWs (k.toList ++ '=' :: w.toList) =
      k.toList ++ '=' :: w.toList := by
    apply dropWhile_head_false
    intro c hc
    rw [head?_append_left _ _ hkne] at hc
    exact jsTrim_self_head k hk2 c hc
  rw [hstep1]
  have hstep2 : (k.toList ++ '=' :: w.toList).reverse =
      w.toList.reverse ++ '=' :: k.toList.reverse := by
    simp
  rw [hstep2]
  rw [dropWhile_append_stop isJsWs '=' k.toList.reverse (by decide) w.toList.reverse]
  simp

/-- The regex `^([^=]+)=(.*)$` on a `KEY=rest` list whose key is nonempty,
`=`-free and single-line. -/
theorem matchKeyValue_kv (k : String) (w2 : List Char)
    (hk1 : strIsEmpty k = false)
    (hkeq : ∀ a ∈ k.toList, a ≠ '=')
    (hw2 : w2.any isLineTerm = false) :
    matchKeyValue (k.toList ++ '=' :: w2).asString = some (k, w2.asString) := by
  unfold matchKeyValue
  rw [List.toList_asString]
  have htake : List.takeWhile (fun c => c != '=') (k.toList ++ '=' :: w2) =
      k.toList := by
    apply takeWhile_append_stop _ _ _ (by decide)
    intro a ha
    simp [hkeq a ha]
  have hdrop : List.dropWhile (fun c => c != '=') (k.toList ++ '=' :: w2) =
      '=' :: w2 := by
    rw [dropWhile_append_stop _ '=' w2 (by decide) k.toList]
    rw [List.dropWhile_eq_nil_iff.mpr (by intro a ha; simp [hkeq a ha])]
    rfl
  simp only []
  rw [htake, hdrop]
  have hkne : k.toList.isEmpty = false := hk1
  have hklne : ¬k.toList = [] := by
    intro hnil
    rw [hnil] at hkne
    simp at hkne
  simp [hkne, hw2]
  exact ⟨hklne, String.asString_toList k⟩

/-- A line whose first character is `#` is skipped by
`EnvFileHandler.parse`. -/
theorem parseEnvLine_hash (s : String) (rest : List Char)
    (h : s.toList = '#' :: rest) : parseEnvLine s = none := by
  have htrim : (jsTrim s).toList =
      '#' :: (List.dropWhile isJsWs rest.reverse).reverse := by
    rw [jsTrim_toList, h]
    unfold jsTrimList
    rw [List.dropWhile_cons_of_neg (by decide)]
    have : ('#' :: rest).reverse = rest.reverse ++ '#' :: [] := by simp
    rw [this, dropWhile_append_stop isJsWs '#' [] (by decide) rest.reverse]
    simp
  have hstart : strStartsWith (jsTrim s) "#" = true := by
    rw [strStartsWith, htrim]
    simp [List.isPrefixOf]
  unfold parseEnvLine
  simp only []
  rw [hstart]
  simp

/-- `EnvFileHandler.parse` on a generated `KEY=value` line with a good key:
the parsed key is the schema key itself. -/
theorem parseEnvLine_kv_key (k w : String)
    (hk : goodKey k = true) (hw : isSingleLine w = true) :
    ∃ val, parseEnvLine (k ++ "=" ++ w) = some (k, val) := by
  rw [goodKey] at hk
  simp only [Bool.and_eq_true, Bool.not_eq_true', decide_eq_true_eq,
    List.all_eq_true] at hk
  obtain ⟨⟨⟨⟨hne, htrim⟩, heq⟩, _⟩, hhash⟩ := hk
  have hw2 : (List.dropWhile isJsWs w.toList.reverse).reverse.any isLineTerm
      = false := by
    rw [Bool.eq_false_iff]
    intro hany
    rw [List.any_eq_true] at hany
    obtain ⟨c, hc, hterm⟩ := hany
    rw [List.mem_reverse] at hc
    have hcw : c ∈ w.toList := List.mem_reverse.mp ((List.dropWhile_sublist _).mem hc)
    rw [isSingleLine, List.all_eq_true] at hw
    have := hw c hcw
    rw [hterm] at this
    simp at this
  have hmatch := matchKeyValue_kv k (List.dropWhile isJsWs w.toList.reverse).reverse
    hne heq hw2
  have htl : jsTrim (k ++ "=" ++ w) =
      (k.toList ++ '=' :: (List.dropWhile isJsWs w.toList.reverse).reverse).asString := by
    have := jsTrim_kv_line k w hne htrim
    rw [← List.toList_asString
      (k.toList ++ '=' :: (List.dropWhile isJsWs w.toList.reverse).reverse)] at this
    exact String.toList_inj.mp (by rw [this, List.toList_asString])
  have hklne : k.toList ≠ [] := by
    intro hnil
    simp only [strIsEmpty, hnil] at hne
    simp at hne
  have hemp : strIsEmpty
      ((k.toList ++ '=' :: (List.dropWhile isJsWs w.toList.reverse).reverse).asString)
      = false := by
    rw [strIsEmpty, List.toList_asString]
    cases hkl : k.toList with
    | nil => exact absurd hkl hklne
    | cons a l => simp
  have hhash2 : strStartsWith
      ((k.toList ++ '=' :: (List.dropWhile isJsWs w.toList.reverse).reverse).asString)
      "#" = false := by
    rw [strStartsWith, List.toList_asString]
    cases hkl : k.toList with
    | nil => exact absurd hkl hklne
    | cons a l =>
      simp only [strStartsWith, hkl] at hhash
      simp only [List.cons_append]
      simp [List.isPrefixOf] at hhash ⊢
      exact hhash
  unfold parseEnvLine
  simp only []
  rw [htl, hmatch, hemp, hhash2]
  simp [htrim]

/-- `EnvFileHandler.parse` returns a good key and a good value verbatim. -/
theorem parseEnvLine_kv_exact (k v : String)
    (hk : goodKey k = true) (hv : goodValue v = true) :
    parseEnvLine (k ++ "=" ++ v) = some (k, v) := by
  rw [goodKey] at hk
  simp only [Bool.and_eq_true, Bool.not_eq_true', decide_eq_true_eq,
    List.all_eq_true] at hk
  obtain ⟨⟨⟨⟨hne, htrim⟩, heq⟩, _⟩, hhash⟩ := hk
  rw [goodValue] at hv
  simp only [Bool.and_eq_true, Bool.not_eq_true', decide_eq_true_eq] at hv
  obtain ⟨⟨hvtrim, hvsingle⟩, hvquote⟩ := hv
  have hvrev : (List.dropWhile isJsWs v.toList.reverse).reverse = v.toList := by
    rw [dropWhile_head_false isJsWs v.toList.reverse (jsTrim_self_revhead v hvtrim),
      List.reverse_reverse]
  have hvany : v.toList.any isLineTerm = false := by
    rw [Bool.eq_false_iff]
    intro hany
    rw [List.any_eq_true] at hany
    obtain ⟨c, hc, hterm⟩ := hany
    rw [isSingleLine, List.all_eq_true] at hvsingle
    have hns := hvsingle c hc
    rw [hterm] at hns
    simp at hns
  have hmatch := matchKeyValue_kv k v.toList hne heq hvany
  have htl : jsTrim (k ++ "=" ++ v) = (k.toList ++ '=' :: v.toList).asString := by
    have h1 := jsTrim_kv_line k v hne htrim
    rw [hvrev] at h1
    exact String.toList_inj.mp (by rw [h1, List.toList_asString])
  have hklne : k.toList ≠ [] := by
    intro hnil
    rw [strIsEmpty, hnil] at hne
    simp at hne
  have hemp : strIsEmpty ((k.toList ++ '=' :: v.toList).asString) = false := by
    rw [strIsEmpty, List.toList_asString]
    cases hkl : k.toList with
    | nil => exact absurd hkl hklne
    | cons a l => simp
  have hhash2 : strStartsWith ((k.toList ++ '=' :: v.toList).asString) "#"
      = false := by
    rw [strStartsWith, List.toList_asString]
    cases hkl : k.toList with
    | nil => exact absurd hkl hklne
    | cons a l =>
      simp only [strStartsWith, hkl] at hhash
      simp only [List.cons_append]
      simp [List.isPrefixOf] at hhash ⊢
      exact hhash
  have hv0 : jsTrim (v.toList.asString) = v := by
    rw [String.asString_toList]
    exact hvtrim
  unfold parseEnvLine
  simp only []
  rw [htl, hmatch, hemp, hhash2]
  simp [htrim, String.asString_toList]
  have hv0d : jsTrim v.data.asString = v := hv0
  rw [hv0d]
  have hq : ¬(strStartsWith v "\"" = true ∧ strEndsWith v "\"" = true ∨
      strStartsWith v squote = true ∧ strEndsWith v squote = true) := by
    intro hor
    rcases hor with ⟨h1, h2⟩ | ⟨h1, h2⟩ <;> simp [h1, h2] at hvquote
  rw [if_neg hq]

theorem splitLines_no_nl (l : List Char) (h : '\n' ∉ l) : splitLines l = [l] := by
  induction l with
  | nil => rfl
  | cons c cs ih =>
    unfold splitLines
    rw [if_neg (by intro hc; subst hc; exact h (List.mem_cons_self _ _))]
    rw [ih (fun hm => h (List.mem_cons_of_mem _ hm))]

theorem splitLines_append (l rest : List Char) (h : '\n' ∉ l) :
    splitLines (l ++ '\n' :: rest) = l :: splitLines rest := by
  induction l with
  | nil =>
    rw [List.nil_append]
    conv_lhs => unfold splitLines
    rw [if_pos rfl]
  | cons c cs ih =>
    rw [List.cons_append]
    conv_lhs => unfold splitLines
    rw [if_neg (by intro hc; subst hc; exact h (List.mem_cons_self _ _))]
    rw [ih (fun hm => h (List.mem_cons_of_mem _ hm))]

theorem jsSplitNL_joinNL : ∀ (ls : List String), ls ≠ [] →
    (∀ l ∈ ls, '\n' ∉ l.toList) → jsSplitNL (joinNL ls) = ls := by
  intro ls
  induction ls with
  | nil => intro h; exact absurd rfl h
  | cons l ls ih =>
    intro _ hnl
    cases ls with
    | nil =>
      show jsSplitNL l = [l]
      rw [jsSplitNL, splitLines_no_nl l.toList (hnl l (List.mem_cons_self _ _))]
      simp only [List.map_cons, List.map_nil]
      rw [String.asString_toList]
    | cons l2 ls2 =>
      have hjoin : joinNL (l :: l2 :: ls2) = l ++ "\n" ++ joinNL (l2 :: ls2) := rfl
      have htl : (joinNL (l :: l2 :: ls2)).toList =
          l.toList ++ '\n' :: (joinNL (l2 :: ls2)).toList := by
        rw [hjoin, toList_append, toList_append]
        simp
      rw [jsSplitNL, htl,
        splitLines_append _ _ (hnl l (List.mem_cons_self _ _)), List.map_cons]
      have hrec : jsSplitNL (joinNL (l2 :: ls2)) = l2 :: ls2 :=
        ih (by simp) (fun x hx => hnl x (List.mem_cons_of_mem _ hx))
      rw [jsSplitNL] at hrec
      rw [hrec, String.asString_toList]

theorem jsObjGet_set_self {α : Type} (env : List (String × α)) (k : String)
    (v : α) : jsObjGet (jsObjSet env k v) k = some v := by
  induction env with
  | nil => simp [jsObjSet, jsObjGet]
  | cons kv rest ih =>
    obtain ⟨k2, v2⟩ := kv
    unfold jsObjSet
    by_cases h : k2 = k
    · rw [if_pos h]
      simp [jsObjGet]
    · rw [if_neg h]
      unfold jsObjGet
      rw [if_neg h]
      exact ih

theorem jsObjGet_set_ne {α : Type} (env : List (String × α)) (k k2 : String)
    (v : α) (h : k2 ≠ k) : jsObjGet (jsObjSet env k2 v) k = jsObjGet env k := by
  induction env with
  | nil => simp [jsObjSet, jsObjGet, h]
  | cons kv rest ih =>
    obtain ⟨k3, v3⟩ := kv
    unfold jsObjSet
    by_cases h3 : k3 = k2
    · rw [if_pos h3]
      unfold jsObjGet
      rw [if_neg h, if_neg (h3 ▸ h)]
    · rw [if_neg h3]
      unfold jsObjGet
      by_cases h4 : k3 = k
      · rw [if_pos h4, if_pos h4]
      · rw [if_neg h4, if_neg h4]
        exact ih

theorem foldl_parseStep_untouched (k : String) :
    ∀ (lines : List String) (env : List (String × String)),
      (∀ l ∈ lines, ∀ kv, parseEnvLine l = some kv → kv.1 ≠ k) →
      jsObjGet (lines.foldl parseStep env) k = jsObjGet env k := by
  intro lines
  induction lines with
  | nil => intro env _; rfl
  | cons l ls ih =>
    intro env h
    rw [List.foldl_cons]
    have hstep : jsObjGet (parseStep env l) k = jsObjGet env k := by
      unfold parseStep
      cases hp : parseEnvLine l with
      | none => rfl
      | some kv =>
        exact jsObjGet_set_ne env k kv.1 kv.2 (h l (List.mem_cons_self _ _) kv hp)
    rw [ih _ (fun l2 hl2 => h l2 (List.mem_cons_of_mem _ hl2)), hstep]

theorem generateExampleLines_eq (rt : JsRuntime) (now : String)
    (schema : List (String × EnvVarConfig)) :
    generateExampleLines rt now schema =
      ["# Generated Environment Variables", "# Generated on " ++ now, ""] ++
        schema.flatMap (fun kv => fieldLines rt kv.1 kv.2) := by
  unfold generateExampleLines
  generalize ["# Generated Environment Variables", "# Generated on " ++ now, ""]
    = init
  induction schema generalizing init with
  | nil => simp
  | cons kv rest ih =>
    rw [List.foldl_cons, List.flatMap_cons, ih]
    simp [List.append_assoc]

theorem isSingleLine_append (a b : String) (ha : isSingleLine a = true)
    (hb : isSingleLine b = true) : isSingleLine (a ++ b) = true := by
  rw [isSingleLine] at ha hb ⊢
  rw [toList_append, List.all_append, ha, hb]
  rfl

theorem singleLine_no_nl (s : String) (h : isSingleLine s = true) :
    '\n' ∉ s.toList := by
  intro hm
  rw [isSingleLine, List.all_eq_true] at h
  have h2 := h '\n' hm
  simp [isLineTerm] at h2

theorem typeTagStr_singleLine (ty : EnvVarType) :
    isSingleLine (typeTagStr ty) = true := by
  cases ty <;> decide

theorem getExampleValue_singleLine (rt : JsRuntime) (cfg : EnvVarConfig)
    (hd : ∀ d2, cfg.default = some d2 →
      isSingleLine (jsValueToString rt d2) = true) :
    isSingleLine (getExampleValue rt cfg) = true := by
  cases hdd : cfg.default with
  | some d =>
    have h2 : getExampleValue rt cfg = jsValueToString rt d := by
      unfold getExampleValue
      rw [hdd]
    rw [h2]
    exact hd d hdd
  | none =>
    have h2 : getExampleValue rt cfg =
        (match cfg.type with
          | .tstring => "example_value"
          | .tnumber => "3000"
          | .tboolean => "true"
          | .turl => "https://example.com"
          | .temail => "user@example.com"
          | .tjson => "\x7b\"key\": \"value\"\x7d") := by
      unfold getExampleValue
      rw [hdd]
    rw [h2]
    cases cfg.type <;> decide

theorem fieldLines_single (rt : JsRuntime) (k2 : String) (cfg : EnvVarConfig)
    (hk2 : isSingleLine k2 = true)
    (hds : ∀ ds, cfg.description = some ds → isSingleLine ds = true)
    (hd : ∀ d2, cfg.default = some d2 →
      isSingleLine (jsValueToString rt d2) = true) :
    ∀ l ∈ fieldLines rt k2 cfg, isSingleLine l = true := by
  intro l hl
  unfold fieldLines at hl
  rcases List.mem_append.mp hl with hl2 | hkv
  · rcases List.mem_append.mp hl2 with hl3 | hE
    · rcases List.mem_append.mp hl3 with hl4 | hD
      · rcases List.mem_append.mp hl4 with hl5 | hC
        · rcases List.mem_append.mp hl5 with hA | hB
          · cases hdd : cfg.description with
            | none => rw [hdd] at hA; simp at hA
            | some d =>
              rw [hdd] at hA
              have hred : (match some d with
                  | some d => if d = "" then [] else ["# " ++ d]
                  | none => ([] : List String)) =
                  if d = "" then [] else ["# " ++ d] := rfl
              rw [hred] at hA
              by_cases hde : d = ""
              · rw [if_pos hde] at hA; simp at hA
              · rw [if_neg hde] at hA
                simp only [List.mem_singleton] at hA
                subst hA
                exact isSingleLine_append _ _ (by decide) (hds d hdd)
          · simp only [List.mem_singleton] at hB
            subst hB
            exact isSingleLine_append _ _ (by decide) (typeTagStr_singleLine _)
        · by_cases hr : cfg.required = true
          · simp only [hr, if_true, List.mem_singleton] at hC
            subst hC
            decide
          · simp [hr] at hC
      · cases hdd : cfg.default with
        | none => rw [hdd] at hD; simp at hD
        | some d =>
          rw [hdd] at hD
          simp at hD
          subst hD
          exact isSingleLine_append _ _ (by decide) (hd d hdd)
    · cases hvv : cfg.validator with
      | none => rw [hvv] at hE; simp at hE
      | some f =>
        rw [hvv] at hE
        simp at hE
        subst hE
        decide
  · simp only [List.mem_cons, List.mem_singleton, List.not_mem_nil,
      or_false] at hkv
    rcases hkv with rfl | rfl
    · exact isSingleLine_append _ _
        (isSingleLine_append _ _ hk2 (by decide))
        (getExampleValue_singleLine rt cfg hd)
    · decide

theorem fieldLines_cases (rt : JsRuntime) (k2 : String) (cfg : EnvVarConfig) :
    ∀ l ∈ fieldLines rt k2 cfg,
      (∃ rest, l.toList = '#' :: rest) ∨ l = "" ∨
        l = k2 ++ "=" ++ getExampleValue rt cfg := by
  intro l hl
  unfold fieldLines at hl
  rcases List.mem_append.mp hl with hl2 | hkv
  · rcases List.mem_append.mp hl2 with hl3 | hE
    · rcases List.mem_append.mp hl3 with hl4 | hD
      · rcases List.mem_append.mp hl4 with hl5 | hC
        · rcases List.mem_append.mp hl5 with hA | hB
          · cases hdd : cfg.description with
            | none => rw [hdd] at hA; simp at hA
            | some d =>
              rw [hdd] at hA
              have hred : (match some d with
                  | some d => if d = "" then [] else ["# " ++ d]
                  | none => ([] : List String)) =
                  if d = "" then [] else ["# " ++ d] := rfl
              rw [hred] at hA
              by_cases hde : d = ""
              · rw [if_pos hde] at hA; simp at hA
              · rw [if_neg hde] at hA
                simp only [List.mem_singleton] at hA
                subst hA
                exact Or.inl ⟨' ' :: d.toList, rfl⟩
          · simp only [List.mem_singleton] at hB
            subst hB
            exact Or.inl ⟨_, rfl⟩
        · by_cases hr : cfg.required = true
          · simp only [hr, if_true, List.mem_singleton] at hC
            subst hC
            exact Or.inl ⟨_, rfl⟩
          · simp [hr] at hC
      · cases hdd : cfg.default with
        | none => rw [hdd] at hD; simp at hD
        | some d =>
          rw [hdd] at hD
          simp at hD
          subst hD
          exact Or.inl ⟨_, rfl⟩
    · cases hvv : cfg.validator with
      | none => rw [hvv] at hE; simp at hE
      | some f =>
        rw [hvv] at hE
        simp at hE
        subst hE
        exact Or.inl ⟨_, rfl⟩
  · simp only [List.mem_cons, List.mem_singleton, List.not_mem_nil,
      or_false] at hkv
    rcases hkv with rfl | rfl
    · exact Or.inr (Or.inr rfl)
    · exact Or.inr (Or.inl rfl)

theorem fieldLines_not_set (rt : JsRuntime) (k k2 : String)
    (cfg2 : EnvVarConfig) (hk2 : goodKey k2 = true)
    (hsingle : isSingleLine (getExampleValue rt cfg2) = true)
    (hne : k2 ≠ k) :
    ∀ l ∈ fieldLines rt k2 cfg2, ∀ kv, parseEnvLine l = some kv → kv.1 ≠ k := by
  intro l hl kv hp
  rcases fieldLines_cases rt k2 cfg2 l hl with ⟨rest, hr⟩ | rfl | rfl
  · rw [parseEnvLine_hash l rest hr] at hp
    exact absurd hp (by simp)
  · rw [show parseEnvLine "" = none from rfl] at hp
    exact absurd hp (by simp)
  · obtain ⟨val, hval⟩ :=
      parseEnvLine_kv_key k2 (getExampleValue rt cfg2) hk2 hsingle
    rw [hval] at hp
    have hkv2 : (k2, val) = kv := Option.some.inj hp
    intro hk
    rw [← hkv2] at hk
    exact hne hk

theorem goodKey_singleLine (k : String) (h : goodKey k = true) :
    isSingleLine k = true := by
  rw [goodKey] at h
  simp only [Bool.and_eq_true] at h
  exact h.1.2

theorem parseStep_blank (env : List (String × String)) :
    parseStep env "" = env := rfl

theorem parseStep_set (env : List (String × String)) (l k2 v2 : String)
    (h : parseEnvLine l = some (k2, v2)) :
    parseStep env l = jsObjSet env k2 v2 := by
  unfold parseStep
  rw [h]

theorem generateExampleLines_no_nl (rt : JsRuntime) (now : String)
    (schema : List (String × EnvVarConfig))
    (hnow : isSingleLine now = true)
    (hkeys : ∀ kv ∈ schema, goodKey kv.1 = true)
    (hdesc : ∀ kv ∈ schema, ∀ ds, kv.2.description = some ds →
      isSingleLine ds = true)
    (hdefs : ∀ kv ∈ schema, ∀ d2, kv.2.default = some d2 →
      isSingleLine (jsValueToString rt d2) = true) :
    ∀ l ∈ generateExampleLines rt now schema, '\n' ∉ l.toList := by
  intro l hl
  rw [generateExampleLines_eq] at hl
  rcases List.mem_append.mp hl with hh | hb
  · simp only [List.mem_cons, List.not_mem_nil, or_false] at hh
    rcases hh with rfl | rfl | rfl
    · exact singleLine_no_nl _ (by decide)
    · exact singleLine_no_nl _ (isSingleLine_append _ _ (by decide) hnow)
    · exact singleLine_no_nl _ (by decide)
  · obtain ⟨kv, hkvmem, hlf⟩ := List.mem_flatMap.mp hb
    exact singleLine_no_nl _ (fieldLines_single rt kv.1 kv.2
      (goodKey_singleLine kv.1 (hkeys kv hkvmem)) (hdesc kv hkvmem)
      (hdefs kv hkvmem) l hlf)

/-- C7 (amended): generating an example file and re-parsing it recovers
`String(defaultValue)` for a field with a default, provided the schema is
benign for the `.env` line syntax: every key is a trimmed, nonempty,
single-line string without `=` that does not open a comment; the timestamp,
every description and every stringified default are single-line; keys are
unique; and the field's own stringified default is trim-stable and not
wrapped in matching quotes.  (The counterexample shows the claim fails
without these provisos.) -/
theorem generate_then_parse_roundtrip (rt : JsRuntime) (now : String)
    (schema : List (String × EnvVarConfig)) (k : String) (cfg : EnvVarConfig)
    (d : Value)
    (hnow : isSingleLine now = true)
    (hkeys : ∀ kv ∈ schema, goodKey kv.1 = true)
    (hdesc : ∀ kv ∈ schema, ∀ ds, kv.2.description = some ds →
      isSingleLine ds = true)
    (hdefs : ∀ kv ∈ schema, ∀ d2, kv.2.default = some d2 →
      isSingleLine (jsValueToString rt d2) = true)
    (hnd : (schema.map Prod.fst).Nodup)
    (hmem : (k, cfg) ∈ schema)
    (hd : cfg.default = some d)
    (hval : goodValue (jsValueToString rt d) = true) :
    jsObjGet (parseEnvContent (generateExampleContent rt now schema)) k =
      some (jsValueToString rt d) := by
  have hsplit : jsSplitNL (generateExampleContent rt now schema) =
      generateExampleLines rt now schema := by
    unfold generateExampleContent
    apply jsSplitNL_joinNL
    · rw [generateExampleLines_eq]
      simp
    · exact generateExampleLines_no_nl rt now schema hnow hkeys hdesc hdefs
  unfold parseEnvContent
  rw [hsplit]
  obtain ⟨s1, s2, rfl⟩ := List.append_of_mem hmem
  have hmem2 : (k, cfg) ∈ s1 ++ (k, cfg) :: s2 :=
    List.mem_append.mpr (Or.inr (List.mem_cons_self _ _))
  have hkline : parseEnvLine (k ++ "=" ++ getExampleValue rt cfg) =
      some (k, jsValueToString rt d) := by
    have hex : getExampleValue rt cfg = jsValueToString rt d := by
      unfold getExampleValue
      rw [hd]
    rw [hex]
    exact parseEnvLine_kv_exact k (jsValueToString rt d)
      (hkeys (k, cfg) hmem2) hval
  have hknotins2 : k ∉ s2.map Prod.fst := by
    rw [List.map_append, List.map_cons] at hnd
    have hmid := List.nodup_middle.mp hnd
    rw [List.nodup_cons] at hmid
    intro hk
    exact hmid.1 (List.mem_append.mpr (Or.inr hk))
  have hs2 : ∀ l ∈ s2.flatMap (fun kv => fieldLines rt kv.1 kv.2),
      ∀ kv, parseEnvLine l = some kv → kv.1 ≠ k := by
    intro l hlm kv hp
    obtain ⟨kv2, hkv2mem, hlf⟩ := List.mem_flatMap.mp hlm
    have hkv2mem2 : kv2 ∈ s1 ++ (k, cfg) :: s2 :=
      List.mem_append.mpr (Or.inr (List.mem_cons_of_mem _ hkv2mem))
    have hne2 : kv2.1 ≠ k := by
      intro he
      exact hknotins2 (he ▸ List.mem_map_of_mem Prod.fst hkv2mem)
    exact fieldLines_not_set rt k kv2.1 kv2.2 (hkeys kv2 hkv2mem2)
      (getExampleValue_singleLine rt kv2.2 (hdefs kv2 hkv2mem2))
      hne2 l hlf kv hp
  rw [generateExampleLines_eq, List.flatMap_append, List.flatMap_cons]
  show jsObjGet (List.foldl parseStep []
    (["# Generated Environment Variables", "# Generated on " ++ now, ""] ++
      ((s1.flatMap fun kv => fieldLines rt kv.1 kv.2) ++
        (fieldLines rt k cfg ++
          s2.flatMap fun kv => fieldLines rt kv.1 kv.2)))) k =
    some (jsValueToString rt d)
  have hfdec : ∃ X : List String, fieldLines rt k cfg =
      X ++ [k ++ "=" ++ getExampleValue rt cfg, ""] := ⟨_, rfl⟩
  obtain ⟨X, hX⟩ := hfdec
  rw [hX]
  simp only [List.foldl_append, List.foldl_cons, List.foldl_nil, parseStep_blank]
  rw [parseStep_set _ _ _ _ hkline, foldl_parseStep_untouched k _ _ hs2]
  exact jsObjGet_set_self _ k _

/-- Witness for C7 (amended): a two-field schema with a defaulted string
field and a boolean field round-trips the default `dv`. -/
theorem generate_then_parse_roundtrip_witness :
    jsObjGet (parseEnvContent (generateExampleContent rtW "2024-01-01"
      [("A", { type := .tstring, default := some (.vstr "dv"),
               description := some "desc" }),
       ("B", boolCfg)])) "A" = some "dv" :=
  generate_then_parse_roundtrip rtW "2024-01-01"
    [("A", { type := .tstring, default := some (.vstr "dv"),
             description := some "desc" }),
     ("B", boolCfg)] "A"
    { type := .tstring, default := some (.vstr "dv"),
      description := some "desc" } (.vstr "dv")
    (by decide)
    (by decide)
    (by
      intro kv hkv ds hds
      rcases List.mem_cons.mp hkv with rfl | hkv2
      · have h2 := Option.some.inj hds
        subst h2
        decide
      · rcases List.mem_singleton.mp hkv2 with rfl
        exact Option.noConfusion hds)
    (by
      intro kv hkv d2 hd2
      rcases List.mem_cons.mp hkv with rfl | hkv2
      · have h2 := Option.some.inj hd2
        subst h2
        decide
      · rcases List.mem_singleton.mp hkv2 with rfl
        exact Option.noConfusion hd2)
    (by decide)
    (List.mem_cons_self _ _)
    rfl
    (by decide)

/-- Counterexample to C7 as stated: for a default whose `String()` form has
leading whitespace, re-parsing the generated file trims the value, so the
raw value differs from `String(defaultValue)`. -/
theorem generate_parse_trims_counterexample :
    jsValueToString rtW (.vstr " x") = " x" ∧
    jsObjGet (parseEnvContent (generateExampleContent rtW "D"
      [("A", { type := .tstring, default := some (.vstr " x") })])) "A" =
      some "x" ∧
    ("x" : String) ≠ " x" :=
  ⟨rfl, by decide, by decide⟩

end EnvSpec
